import Mathlib

/-!
Shallow embedding of the R2D2 agent with transformer belief module
(`pyhanabi/r2d2_beliefmodule.py`).  A tensor axis is modelled as a list of
rationals; several axes become nested lists.  Elementwise tensor arithmetic
becomes `List.zipWith` / `List.map`, `torch.cat` becomes `++`, Python slices
become `drop`/`take` (with Python's clamping semantics), and the stochastic
samplers are modelled by an explicit stream of proposed samples.
-/

/-! ### Generic list index lemmas used throughout -/

theorem list_getD_zipWith {α β γ : Type} (f : α → β → γ) (xs : List α) (ys : List β)
    (i : ℕ) (da : α) (db : β) (dc : γ) (hx : i < xs.length) (hy : i < ys.length) :
    (List.zipWith f xs ys).getD i dc = f (xs.getD i da) (ys.getD i db) := by
  induction xs generalizing ys i with
  | nil => simp at hx
  | cons a as ih =>
    cases ys with
    | nil => simp at hy
    | cons b bs =>
      cases i with
      | zero => simp
      | succ n =>
        simp only [List.getD_cons_succ, List.zipWith_cons_cons]
        exact ih bs n (by simpa using hx) (by simpa using hy)

theorem list_getD_map {α β : Type} (f : α → β) (xs : List α) (i : ℕ) (da : α)
    (db : β) (h : i < xs.length) : (xs.map f).getD i db = f (xs.getD i da) := by
  induction xs generalizing i with
  | nil => simp at h
  | cons a as ih =>
    cases i with
    | zero => simp
    | succ n =>
      simp only [List.getD_cons_succ, List.map_cons]
      exact ih n (by simpa using h)

theorem list_getD_range (n i : ℕ) (d : ℕ) (h : i < n) :
    (List.range n).getD i d = i := by
  rw [List.getD_eq_getElem _ _ (by simpa using h)]
  simp

/-! ### TemporalDifferenceEngine: n-step target and validity mask (td_error)

The time axis of one batch element is a list of length `max_seq_len`.
`roll_left` is `torch.cat([target_qa[self.multi_step:], target_qa[:self.multi_step]], 0)`
and `set_last_zero` is the in-place `target_qa[-self.multi_step:] = 0`
(Python slice semantics: `[-0:]` is the whole tensor, and a negative start
index below `-len` clamps to 0). -/

def roll_left (m : ℕ) (xs : List ℚ) : List ℚ := xs.drop m ++ xs.take m

def set_last_zero (m : ℕ) (xs : List ℚ) : List ℚ :=
  if m = 0 then xs.map (fun _ => (0 : ℚ))
  else List.zipWith (fun i x => if xs.length - m ≤ i then (0 : ℚ) else x)
    (List.range xs.length) xs

def shifted_target_qa (m : ℕ) (tq : List ℚ) : List ℚ :=
  set_last_zero m (roll_left m tq)

/-- Model of `target = reward + bootstrap * (self.gamma ** self.multi_step) * target_qa`
after the circular shift and tail zeroing of `target_qa` (one batch element,
time axis as a list). -/
def td_target (m : ℕ) (gamma : ℚ) (reward bootstrap tq : List ℚ) : List ℚ :=
  List.zipWith (fun r bq => r + bq) reward
    (List.zipWith (fun b q => b * gamma ^ m * q) bootstrap (shifted_target_qa m tq))

/-- Model of `mask = (torch.arange(0, max_seq_len).unsqueeze(1) < seq_len.unsqueeze(0)).float()`
for one batch element with true length `sl`. -/
def valid_mask (max_seq_len sl : ℕ) : List ℚ :=
  (List.range max_seq_len).map (fun t => if t < sl then (1 : ℚ) else 0)

/-- Model of `err = (target.detach() - online_qa) * mask` for one batch element. -/
def masked_err (target online mask : List ℚ) : List ℚ :=
  List.zipWith (· * ·) (List.zipWith (· - ·) target online) mask

/-! ### ActionSelector: epsilon-greedy mixing (act, lines 305-309)

`rand = (rand < eps).long(); action = greedy_action * (1 - rand) + random_action * rand`,
for one batch element: `r` is the uniform draw from `[0, 1)`. -/

def eps_greedy_action (greedy_a random_a : ℤ) (eps r : ℚ) : ℤ :=
  greedy_a * (1 - if r < eps then (1 : ℤ) else 0) +
    random_a * (if r < eps then (1 : ℤ) else 0)

/-! ### ValueNetwork: dueling combination (_duel)

One `(seq, batch)` row of the tensors: `v` is the scalar value head output,
`a` and `legal_move` the action-axis vectors.  `_duel` asserts
`a.size() == legal_move.size()` (modelled as `none` on mismatch), then
computes `q = v + legal_a - legal_a.mean(2)`, the mean dividing by the full
action-axis size. -/

def duel (v : ℚ) (a legal_move : List ℚ) : Option (List ℚ) :=
  if a.length = legal_move.length then
    some ((List.zipWith (· * ·) a legal_move).map
      (fun x => v + x - (List.zipWith (· * ·) a legal_move).sum / (a.length : ℚ)))
  else none

/-- The same dueling row as a function on `Fin n`, used for the algebraic
invariance statement: `q i = v + a i * l i - (∑ j, a j * l j) / n`. -/
def duelRow (n : ℕ) (v : ℚ) (a l : Fin n → ℚ) : Fin n → ℚ :=
  fun i => v + a i * l i - (∑ j, a j * l j) / (n : ℚ)

/-- Mean of `q` restricted to the legal actions (mask-weighted sum divided by
the number of legal actions). -/
def legalMean (n : ℕ) (q l : Fin n → ℚ) : ℚ :=
  (∑ j, q j * l j) / (∑ j, l j)

/-- A legal entry of `q` centered by the mean over the legal actions. -/
def legalCentered (n : ℕ) (q l : Fin n → ℚ) (i : Fin n) : ℚ :=
  q i - legalMean n q l

/-! ### ActionSelector: greedy action (greedy_act)

`legal_adv = (1 + adv - adv.min()) * legal_move; greedy_action = legal_adv.argmax(1)`.
`adv.min()` is the minimum over the whole `[batch, num_action]` tensor, and
`argmax` returns the first index attaining the maximum of its row. -/

def listMinQ (xs : List ℚ) : ℚ :=
  match xs with
  | [] => 0
  | x :: r => r.foldl min x

def listMaxQ (xs : List ℚ) : ℚ :=
  match xs with
  | [] => 0
  | x :: r => r.foldl max x

def globalMin (rows : List (List ℚ)) : ℚ := listMinQ rows.flatten

def argmaxFirst (xs : List ℚ) : ℕ := xs.findIdx (fun x => x == listMaxQ xs)

def legal_adv_row (g : ℚ) (adv_row legal_row : List ℚ) : List ℚ :=
  List.zipWith (fun x y => (1 + x - g) * y) adv_row legal_row

def greedy_act (adv legal_move : List (List ℚ)) : List ℕ :=
  List.zipWith (fun ar lr => argmaxFirst (legal_adv_row (globalMin adv) ar lr))
    adv legal_move

/-! ### BeliefInference: rejection sampling of target tokens

In both `act` and `td_error` the slot loop draws `temp` by categorical
sampling over the 28-token vocabulary and repeats
`while True: ... if not torch.any(temp==26) and not torch.any(temp==27): break`;
the accepted draw is written by `targets[:, j+1] = temp`.  The sampler is
modelled as an explicit stream of proposed batched samples. -/

def belief_accept (temp : List ℕ) : Bool :=
  !(temp.any (fun x => x == 26)) && !(temp.any (fun x => x == 27))

def sample_accepted (proposals : List (List ℕ)) : Option (List ℕ) :=
  proposals.find? belief_accept

/-! ### Hand-block precondition checks (act line 281, td_error line 389)

`PyTensor` carries the dimensionality so that Python indexing with three
index expressions can fail on a tensor of fewer than three dimensions. -/

inductive PyTensor where
  | t1 : List ℚ → PyTensor
  | t2 : List (List ℚ) → PyTensor
  | t3 : List (List (List ℚ)) → PyTensor

/-- Python indexing `t[:, :, lo:hi]`: three index expressions require at
least three dimensions; on fewer, indexing raises (too many indices).
Slices clamp to the axis length as in Python. -/
def slice_idx3 : PyTensor → ℕ → ℕ → Option PyTensor
  | PyTensor.t3 xs, lo, hi =>
      some (PyTensor.t3 (xs.map (fun p => p.map (fun r => (r.drop lo).take (hi - lo)))))
  | _, _, _ => none

/-- `torch.sum(-, -1)`: sum out the last axis. -/
def sum_last : PyTensor → PyTensor
  | PyTensor.t1 xs => PyTensor.t1 [xs.sum]
  | PyTensor.t2 xs => PyTensor.t1 (xs.map List.sum)
  | PyTensor.t3 xs => PyTensor.t2 (xs.map (fun p => p.map List.sum))

/-- `torch.all(0 == -)`. -/
def all_zero : PyTensor → Bool
  | PyTensor.t1 xs => xs.all (fun x => x == 0)
  | PyTensor.t2 xs => xs.all (fun r => r.all (fun x => x == 0))
  | PyTensor.t3 xs => xs.all (fun p => p.all (fun r => r.all (fun x => x == 0)))

/-- `priv_s.flatten(0, 1)` on a 3-D tensor: `[a, b, c] -> [a*b, c]`. -/
def flatten01 (xs : List (List (List ℚ))) : List (List ℚ) := xs.flatten

/-- Model of the check in `act`:
`assert(torch.all(0 == torch.sum(priv_s[:,:,0:125], -1)))` evaluated after
`priv_s = priv_s.flatten(0, 1)` has already made `priv_s` 2-D.  `some b` is
the assert outcome, `none` an indexing error. -/
def act_hand_check (priv_s : List (List (List ℚ))) : Option Bool :=
  (slice_idx3 (PyTensor.t2 (flatten01 priv_s)) 0 125).map
    (fun s => all_zero (sum_last s))

/-- Model of the same check in `td_error`, where `priv_s` is still the 3-D
`[max_seq_len, batch, dim]` tensor. -/
def td_error_hand_check (priv_s : List (List (List ℚ))) : Option Bool :=
  (slice_idx3 (PyTensor.t3 priv_s) 0 125).map (fun s => all_zero (sum_last s))

/-! ### LossAggregator (loss) -/

/-- Elementwise `nn.functional.smooth_l1_loss(x, 0, reduction="none")` with
the default `beta = 1`. -/
def smooth_l1 (x : ℚ) : ℚ := if |x| < 1 then x ^ 2 / 2 else |x| - 1 / 2

/-- `.sum(0)` over the time axis of a `[seq, batch]` tensor. -/
def sum_dim0 (bsize : ℕ) (rows : List (List ℚ)) : List ℚ :=
  rows.foldr (fun r acc => List.zipWith (· + ·) r acc) (List.replicate bsize 0)

/-- Model of `loss`: `rl_loss = smooth_l1_loss(err, zeros, none).sum(0)`,
`priority = err.abs()`, and `loss = rl_loss + pred_weight * pred_loss` when
`pred_weight > 0`, else `rl_loss`.  The auxiliary prediction loss enters as
an opaque per-batch vector.  The `uniform_priority` flag is carried because
the agent holds it, exactly as in the source, where `loss` never reads it. -/
def loss_fn (uniform_priority : Bool) (pred_weight : ℚ) (err : List (List ℚ))
    (pred_loss : List ℚ) (bsize : ℕ) : List ℚ × List (List ℚ) :=
  (if 0 < pred_weight then
    List.zipWith (fun x y => x + pred_weight * y)
      (sum_dim0 bsize (err.map (fun row => row.map smooth_l1))) pred_loss
   else sum_dim0 bsize (err.map (fun row => row.map smooth_l1)),
   err.map (fun row => row.map (fun x => |x|)))

/-! ### compute_priority -/

/-- Model of `compute_priority`: the input dictionary is split into its
`priv_s` field and the remaining tensors `rest`; the code returns
`torch.ones((priv_s.size(0), priv_s.size(1)))`. -/
def compute_priority (uniform_priority : Bool) (priv_s : List (List (List ℚ)))
    (rest : List (List (List ℚ))) : List (List ℚ) :=
  List.replicate priv_s.length (List.replicate (priv_s.headD []).length 1)

/-! ### Length and index lemmas for the n-step shift -/

theorem roll_left_length (m : ℕ) (xs : List ℚ) :
    (roll_left m xs).length = xs.length := by
  simp [roll_left]
  omega

theorem set_last_zero_length (m : ℕ) (xs : List ℚ) :
    (set_last_zero m xs).length = xs.length := by
  unfold set_last_zero
  split
  · simp
  · simp [List.length_zipWith]

theorem shifted_target_qa_length (m : ℕ) (tq : List ℚ) :
    (shifted_target_qa m tq).length = tq.length := by
  unfold shifted_target_qa
  rw [set_last_zero_length, roll_left_length]

theorem roll_left_getD_lo (m : ℕ) (tq : List ℚ) (t : ℕ) (ht : t + m < tq.length) :
    (roll_left m tq).getD t 0 = tq.getD (t + m) 0 := by
  unfold roll_left
  rw [List.getD_append _ _ _ _ (by simp; omega)]
  rw [List.getD_eq_getElem _ _ (by simp; omega), List.getD_eq_getElem _ _ (by omega)]
  rw [List.getElem_drop]
  congr 1
  omega

theorem set_last_zero_getD_lo (m : ℕ) (xs : List ℚ) (hm : m ≠ 0) (t : ℕ)
    (ht : t + m < xs.length) :
    (set_last_zero m xs).getD t 0 = xs.getD t 0 := by
  unfold set_last_zero
  rw [if_neg hm]
  rw [list_getD_zipWith _ _ _ t 0 0 0 (by simp; omega) (by omega)]
  rw [list_getD_range _ _ 0 (by omega)]
  rw [if_neg (by omega)]

theorem set_last_zero_getD_hi (m : ℕ) (xs : List ℚ) (hm : m ≠ 0) (t : ℕ)
    (h1 : xs.length - m ≤ t) (h2 : t < xs.length) :
    (set_last_zero m xs).getD t 0 = 0 := by
  unfold set_last_zero
  rw [if_neg hm]
  rw [list_getD_zipWith _ _ _ t 0 0 0 (by simp; omega) (by omega)]
  rw [list_getD_range _ _ 0 (by omega)]
  rw [if_pos (by omega)]

theorem shifted_target_qa_getD_lo (m : ℕ) (tq : List ℚ) (hm : 0 < m) (t : ℕ)
    (ht : t + m < tq.length) :
    (shifted_target_qa m tq).getD t 0 = tq.getD (t + m) 0 := by
  unfold shifted_target_qa
  rw [set_last_zero_getD_lo m _ (by omega) t (by rw [roll_left_length]; omega)]
  exact roll_left_getD_lo m tq t ht

theorem shifted_target_qa_getD_hi (m : ℕ) (tq : List ℚ) (hm : 0 < m) (t : ℕ)
    (h1 : tq.length - m ≤ t) (h2 : t < tq.length) :
    (shifted_target_qa m tq).getD t 0 = 0 := by
  unfold shifted_target_qa
  exact set_last_zero_getD_hi m _ (by omega) t
    (by rw [roll_left_length]; omega) (by rw [roll_left_length]; omega)

theorem td_target_getD (m : ℕ) (gamma : ℚ) (reward bootstrap tq : List ℚ)
    (hr : reward.length = tq.length) (hb : bootstrap.length = tq.length)
    (t : ℕ) (ht : t < tq.length) :
    (td_target m gamma reward bootstrap tq).getD t 0 =
      reward.getD t 0 +
        bootstrap.getD t 0 * gamma ^ m * (shifted_target_qa m tq).getD t 0 := by
  unfold td_target
  rw [list_getD_zipWith _ _ _ t 0 0 0 (by omega)
    (by rw [List.length_zipWith, shifted_target_qa_length]; omega)]
  rw [list_getD_zipWith _ _ _ t 0 0 0 (by omega)
    (by rw [shifted_target_qa_length]; omega)]

/-- C1: in `td_error`, after the circular left shift of `target_Qa` by
`multi_step` and the zeroing of the last `multi_step` time positions,
`target = reward + bootstrap * gamma ^ multi_step * shifted_target_Qa`; hence
for `t + multi_step < max_seq_len` the target at `t` bootstraps from
`target_Qa` at `t + multi_step`, and for `t ≥ max_seq_len - multi_step` the
bootstrap term is zero, so the target is exactly the reward. -/
theorem c1_td_error_nstep_target (m : ℕ) (gamma : ℚ) (reward bootstrap tq : List ℚ)
    (hm : 0 < m) (hr : reward.length = tq.length) (hb : bootstrap.length = tq.length) :
    (∀ t, t + m < tq.length →
      (td_target m gamma reward bootstrap tq).getD t 0 =
        reward.getD t 0 + bootstrap.getD t 0 * gamma ^ m * tq.getD (t + m) 0)
    ∧ (∀ t, tq.length - m ≤ t → t < tq.length →
      (td_target m gamma reward bootstrap tq).getD t 0 = reward.getD t 0) := by
  constructor
  · intro t ht
    rw [td_target_getD m gamma reward bootstrap tq hr hb t (by omega)]
    rw [shifted_target_qa_getD_lo m tq hm t ht]
  · intro t h1 h2
    rw [td_target_getD m gamma reward bootstrap tq hr hb t h2]
    rw [shifted_target_qa_getD_hi m tq hm t h1 h2]
    ring

theorem c1_td_error_nstep_target_witness :
    (td_target 1 1 [1, 1] [1, 1] [5, 7]).getD 0 0 = 1 + 1 * 1 ^ 1 * 7 ∧
    (td_target 1 1 [1, 1] [1, 1] [5, 7]).getD 1 0 = 1 :=
  ⟨(c1_td_error_nstep_target 1 1 [1, 1] [1, 1] [5, 7] (by decide) (by decide)
      (by decide)).1 0 (by decide),
   (c1_td_error_nstep_target 1 1 [1, 1] [1, 1] [5, 7] (by decide) (by decide)
      (by decide)).2 1 (by decide) (by decide)⟩

/-- C2: the TD error is multiplied by the validity mask whose entry at time
`t` for a batch element of true length `seq_len` is `1` iff `t < seq_len`;
at every padded position `t ≥ seq_len` the returned error is exactly `0`. -/
theorem c2_td_error_mask_zero (target online : List ℚ) (max_seq_len sl : ℕ)
    (h1 : target.length = max_seq_len) (h2 : online.length = max_seq_len)
    (t : ℕ) (hsl : sl ≤ t) (ht : t < max_seq_len) :
    (masked_err target online (valid_mask max_seq_len sl)).getD t 0 = 0 := by
  unfold masked_err valid_mask
  rw [list_getD_zipWith _ _ _ t 0 0 0 (by rw [List.length_zipWith]; omega)
    (by rw [List.length_map, List.length_range]; omega)]
  rw [list_getD_map _ _ t 0 0 (by rw [List.length_range]; omega)]
  rw [list_getD_range _ _ 0 ht]
  rw [if_neg (by omega)]
  ring

theorem c2_td_error_mask_zero_witness :
    (masked_err [3] [1] (valid_mask 1 0)).getD 0 0 = 0 :=
  c2_td_error_mask_zero [3] [1] 1 0 (by decide) (by decide) 0 (by decide) (by decide)

/-- C8: in the epsilon-greedy mix of `act`, an element with epsilon `0`
always returns the greedy action (the uniform draw lies in `[0, 1)`), and an
element with epsilon `1` always returns the sampled random legal action. -/
theorem c8_eps_greedy_bounds (g a : ℤ) (eps r : ℚ) (h0 : 0 ≤ r) (h1 : r < 1) :
    (eps = 0 → eps_greedy_action g a eps r = g) ∧
    (eps = 1 → eps_greedy_action g a eps r = a) := by
  constructor
  · intro he
    subst he
    unfold eps_greedy_action
    rw [if_neg (by linarith)]
    ring
  · intro he
    subst he
    unfold eps_greedy_action
    rw [if_pos h1]
    ring

theorem c8_eps_greedy_bounds_witness :
    eps_greedy_action 5 9 0 (1 / 2) = 5 ∧ eps_greedy_action 5 9 1 (1 / 2) = 9 :=
  ⟨(c8_eps_greedy_bounds 5 9 0 (1 / 2) (by norm_num) (by norm_num)).1 rfl,
   (c8_eps_greedy_bounds 5 9 1 (1 / 2) (by norm_num) (by norm_num)).2 rfl⟩

/-! ### C3: dueling combination -/

/-- C3: `_duel` asserts `A.shape == legal_move.shape` (fatal on mismatch) and
otherwise computes `Q = V + A * legal_move - mean(A * legal_move)`, the mean
taken over the action axis and dividing by the total number of actions. -/
theorem c3_duel_combination (v : ℚ) (a legal : List ℚ) :
    (a.length ≠ legal.length → duel v a legal = none) ∧
    (a.length = legal.length →
      ∃ q, duel v a legal = some q ∧ q.length = a.length ∧
        ∀ i, i < a.length →
          q.getD i 0 = v + a.getD i 0 * legal.getD i 0 -
            (List.zipWith (· * ·) a legal).sum / (a.length : ℚ)) := by
  constructor
  · intro h
    unfold duel
    rw [if_neg h]
  · intro h
    refine ⟨_, by unfold duel; rw [if_pos h], ?_, ?_⟩
    · rw [List.length_map, List.length_zipWith]
      omega
    · intro i hi
      rw [list_getD_map _ _ i 0 0 (by rw [List.length_zipWith]; omega)]
      rw [list_getD_zipWith _ _ _ i 0 0 0 (by omega) (by omega)]

theorem c3_duel_combination_witness :
    (([1, 3] : List ℚ).length = ([1, 0] : List ℚ).length) ∧
    (∃ q, duel 2 [1, 3] [1, 0] = some q ∧ q.length = ([1, 3] : List ℚ).length ∧
      ∀ i, i < ([1, 3] : List ℚ).length →
        q.getD i 0 = 2 + ([1, 3] : List ℚ).getD i 0 * ([1, 0] : List ℚ).getD i 0 -
          (List.zipWith (· * ·) ([1, 3] : List ℚ) [1, 0]).sum /
            ((([1, 3] : List ℚ).length : ℕ) : ℚ)) :=
  ⟨by decide, (c3_duel_combination 2 [1, 3] [1, 0]).2 (by decide)⟩

/-! ### C9: dueling invariance under advantage shifts -/

/-- C9: for a 0/1 legal mask with at least one legal action, shifting the
advantage stream by a constant `c` before masking leaves every legal entry of
the dueling `Q`, centered by its mean over the legal actions, unchanged. -/
theorem c9_duel_legal_centered_invariant (n : ℕ) (v c : ℚ) (a l : Fin n → ℚ)
    (h01 : ∀ j, l j = 0 ∨ l j = 1) (hk : 0 < ∑ j, l j) (i : Fin n)
    (hi : l i = 1) :
    legalCentered n (duelRow n v (fun j => a j + c) l) l i =
      legalCentered n (duelRow n v a l) l i := by
  have hF1 : ∑ j, (a j + c) * l j = (∑ j, a j * l j) + c * ∑ j, l j := by
    simp [add_mul, Finset.sum_add_distrib, Finset.mul_sum]
  have key : ∀ j, duelRow n v (fun j => a j + c) l j * l j =
      duelRow n v a l j * l j + (c - c * (∑ j, l j) / (n : ℚ)) * l j := by
    intro j
    simp only [duelRow]
    rw [hF1]
    rcases h01 j with h | h <;> rw [h] <;> ring
  have hq : duelRow n v (fun j => a j + c) l i =
      duelRow n v a l i + (c - c * (∑ j, l j) / (n : ℚ)) := by
    have hk2 := key i
    rw [hi] at hk2
    simpa using hk2
  have hsum : ∑ j, duelRow n v (fun j => a j + c) l j * l j =
      (∑ j, duelRow n v a l j * l j) +
        (c - c * (∑ j, l j) / (n : ℚ)) * ∑ j, l j := by
    rw [Finset.sum_congr rfl (fun j _ => key j), Finset.sum_add_distrib,
      ← Finset.mul_sum]
  have hKne : (∑ j, l j) ≠ 0 := ne_of_gt hk
  unfold legalCentered legalMean
  rw [hq, hsum, add_div, mul_div_cancel_right₀ _ hKne]
  ring

theorem c9_duel_legal_centered_invariant_witness :
    (∀ j : Fin 2, ![(0 : ℚ), 1] j = 0 ∨ ![(0 : ℚ), 1] j = 1) ∧
    (0 : ℚ) < (∑ j : Fin 2, ![(0 : ℚ), 1] j) ∧
    legalCentered 2 (duelRow 2 5 (fun j => ![(3 : ℚ), 4] j + 7) ![(0 : ℚ), 1])
        ![(0 : ℚ), 1] 1 =
      legalCentered 2 (duelRow 2 5 ![(3 : ℚ), 4] ![(0 : ℚ), 1]) ![(0 : ℚ), 1] 1 :=
  ⟨by intro j; fin_cases j <;> simp, by norm_num [Fin.sum_univ_two],
   c9_duel_legal_centered_invariant 2 5 7 ![(3 : ℚ), 4] ![(0 : ℚ), 1]
     (by intro j; fin_cases j <;> simp) (by norm_num [Fin.sum_univ_two]) 1
     (by simp)⟩

/-! ### C4: greedy action legality -/

theorem foldl_max_init (r : List ℚ) (x : ℚ) : x ≤ r.foldl max x := by
  induction r generalizing x with
  | nil => simp
  | cons b bs ih => exact le_trans (le_max_left x b) (ih (max x b))

theorem foldl_max_mem (r : List ℚ) (x y : ℚ) (hy : y ∈ r) : y ≤ r.foldl max x := by
  induction r generalizing x with
  | nil => cases hy
  | cons b bs ih =>
    rcases List.mem_cons.mp hy with h | h
    · subst h
      exact le_trans (le_max_right x y) (foldl_max_init bs (max x y))
    · exact ih (max x b) h

theorem foldl_max_self_mem (r : List ℚ) (x : ℚ) : r.foldl max x ∈ x :: r := by
  induction r generalizing x with
  | nil => simp
  | cons b bs ih =>
    simp only [List.foldl_cons]
    have h := ih (max x b)
    rcases List.mem_cons.mp h with h2 | h2
    · rw [h2]
      rcases max_choice x b with h3 | h3 <;> rw [h3]
      · exact List.mem_cons_self x (b :: bs)
      · exact List.mem_cons.mpr (Or.inr (List.mem_cons_self b bs))
    · exact List.mem_cons.mpr (Or.inr (List.mem_cons.mpr (Or.inr h2)))

theorem listMaxQ_ge (xs : List ℚ) (y : ℚ) (hy : y ∈ xs) : y ≤ listMaxQ xs := by
  cases xs with
  | nil => cases hy
  | cons x r =>
    rcases List.mem_cons.mp hy with h | h
    · subst h
      exact foldl_max_init r y
    · exact foldl_max_mem r x y h

theorem listMaxQ_mem (xs : List ℚ) (h : xs ≠ []) : listMaxQ xs ∈ xs := by
  cases xs with
  | nil => exact absurd rfl h
  | cons x r => exact foldl_max_self_mem r x

theorem foldl_min_init (r : List ℚ) (x : ℚ) : r.foldl min x ≤ x := by
  induction r generalizing x with
  | nil => simp
  | cons b bs ih => exact le_trans (ih (min x b)) (min_le_left x b)

theorem foldl_min_mem (r : List ℚ) (x y : ℚ) (hy : y ∈ r) : r.foldl min x ≤ y := by
  induction r generalizing x with
  | nil => cases hy
  | cons b bs ih =>
    rcases List.mem_cons.mp hy with h | h
    · subst h
      exact le_trans (foldl_min_init bs (min x y)) (min_le_right x y)
    · exact ih (min x b) h

theorem listMinQ_le (xs : List ℚ) (y : ℚ) (hy : y ∈ xs) : listMinQ xs ≤ y := by
  cases xs with
  | nil => cases hy
  | cons x r =>
    rcases List.mem_cons.mp hy with h | h
    · subst h
      exact foldl_min_init r y
    · exact foldl_min_mem r x y h

theorem globalMin_le (rows : List (List ℚ)) (row : List ℚ) (hr : row ∈ rows)
    (x : ℚ) (hx : x ∈ row) : globalMin rows ≤ x :=
  listMinQ_le _ x (List.mem_flatten.mpr ⟨row, hr, hx⟩)

theorem argmaxFirst_lt (xs : List ℚ) (h : xs ≠ []) : argmaxFirst xs < xs.length :=
  List.findIdx_lt_length_of_exists ⟨listMaxQ xs, listMaxQ_mem xs h, by simp⟩

theorem argmaxFirst_getD (xs : List ℚ) (h : xs ≠ []) :
    xs.getD (argmaxFirst xs) 0 = listMaxQ xs := by
  have hlt : argmaxFirst xs < xs.length := argmaxFirst_lt xs h
  rw [List.getD_eq_getElem _ _ hlt]
  have h2 := List.findIdx_getElem (w := hlt)
  simpa [argmaxFirst, beq_iff_eq] using h2

theorem legal_adv_row_getD (g : ℚ) (ar lr : List ℚ) (i : ℕ)
    (h1 : i < ar.length) (h2 : i < lr.length) :
    (legal_adv_row g ar lr).getD i 0 = (1 + ar.getD i 0 - g) * lr.getD i 0 := by
  unfold legal_adv_row
  rw [list_getD_zipWith _ _ _ i 0 0 0 h1 h2]

theorem list_getD_mem {α : Type} (xs : List α) (i : ℕ) (d : α)
    (h : i < xs.length) : xs.getD i d ∈ xs := by
  rw [List.getD_eq_getElem _ _ h]
  exact List.getElem_mem ..

/-- C4: for every batch row with at least one legal action (0/1 mask), the
action chosen by `greedy_act` — the first arg-max of
`(1 + adv - adv.min()) * legal_move` — is a legal action: every legal entry
of the shifted advantage is strictly positive while every illegal entry is
exactly zero. -/
theorem c4_greedy_act_legal (adv legal_move : List (List ℚ)) (b : ℕ)
    (hb : b < adv.length) (hbl : b < legal_move.length)
    (hrow : (adv.getD b []).length = (legal_move.getD b []).length)
    (h01 : ∀ x ∈ legal_move.getD b [], x = 0 ∨ x = 1)
    (hex : (1 : ℚ) ∈ legal_move.getD b []) :
    (legal_move.getD b []).getD ((greedy_act adv legal_move).getD b 0) 0 = 1 := by
  have hgr : (greedy_act adv legal_move).getD b 0 =
      argmaxFirst (legal_adv_row (globalMin adv) (adv.getD b [])
        (legal_move.getD b [])) := by
    unfold greedy_act
    rw [list_getD_zipWith _ _ _ b [] [] 0 hb hbl]
  have hlr_ne : legal_move.getD b [] ≠ [] := by
    intro h
    rw [h] at hex
    cases hex
  have hlr_pos : 0 < (legal_move.getD b []).length := List.length_pos.mpr hlr_ne
  have hrow_len : (legal_adv_row (globalMin adv) (adv.getD b [])
      (legal_move.getD b [])).length = (legal_move.getD b []).length := by
    unfold legal_adv_row
    rw [List.length_zipWith]
    omega
  have hrow_ne : legal_adv_row (globalMin adv) (adv.getD b [])
      (legal_move.getD b []) ≠ [] := by
    intro h
    have h0 : (legal_adv_row (globalMin adv) (adv.getD b [])
        (legal_move.getD b [])).length = 0 := by rw [h]; rfl
    omega
  obtain ⟨i, hi, hival⟩ := List.getElem_of_mem hex
  have hi_ar : i < (adv.getD b []).length := by omega
  have hgle : globalMin adv ≤ (adv.getD b []).getD i 0 :=
    globalMin_le adv _ (list_getD_mem adv b [] hb) _
      (list_getD_mem (adv.getD b []) i 0 hi_ar)
  have hlri : (legal_move.getD b []).getD i 0 = 1 := by
    rw [List.getD_eq_getElem (legal_move.getD b []) 0 hi]
    exact hival
  have hpos : 0 < (legal_adv_row (globalMin adv) (adv.getD b [])
      (legal_move.getD b [])).getD i 0 := by
    rw [legal_adv_row_getD _ _ _ i hi_ar hi, hlri, mul_one]
    linarith
  have hi_row : i < (legal_adv_row (globalMin adv) (adv.getD b [])
      (legal_move.getD b [])).length := by omega
  have hmax : 0 < listMaxQ (legal_adv_row (globalMin adv) (adv.getD b [])
      (legal_move.getD b [])) :=
    lt_of_lt_of_le hpos (listMaxQ_ge _ _ (list_getD_mem _ i 0 hi_row))
  have ham_lt : argmaxFirst (legal_adv_row (globalMin adv) (adv.getD b [])
      (legal_move.getD b [])) < (legal_move.getD b []).length := by
    rw [← hrow_len]
    exact argmaxFirst_lt _ hrow_ne
  have hargmax_val : 0 < (legal_adv_row (globalMin adv) (adv.getD b [])
      (legal_move.getD b [])).getD (argmaxFirst (legal_adv_row (globalMin adv)
        (adv.getD b []) (legal_move.getD b []))) 0 := by
    rw [argmaxFirst_getD _ hrow_ne]
    exact hmax
  have hmaskmem : (legal_move.getD b []).getD (argmaxFirst (legal_adv_row
      (globalMin adv) (adv.getD b []) (legal_move.getD b []))) 0 ∈
      legal_move.getD b [] :=
    list_getD_mem _ _ 0 ham_lt
  rw [hgr]
  rcases h01 _ hmaskmem with h0 | h1
  · exfalso
    rw [legal_adv_row_getD _ _ _ _ (by omega) ham_lt, h0, mul_zero]
      at hargmax_val
    exact lt_irrefl 0 hargmax_val
  · exact h1

theorem c4_greedy_act_legal_witness :
    ((([[(1 : ℚ), 0]] : List (List ℚ)).getD 0 []).getD
      ((greedy_act [[(-5 : ℚ), 2]] [[(1 : ℚ), 0]]).getD 0 0) 0 = 1) :=
  c4_greedy_act_legal [[(-5 : ℚ), 2]] [[(1 : ℚ), 0]] 0 (by decide) (by decide)
    (by decide) (by decide) (by decide)

/-! ### C5: rejection sampling and the token alphabet -/

/-- C5 counterexample: the rejection loop accepts a batched draw whose token
is `25`, and `25` is not strictly less than the number of real card types
(25) — the acceptance test only excludes tokens `26` and `27` of the
28-token vocabulary, so the reserved token `25` reaches the finalized write
`targets[:, j+1] = temp`. -/
theorem c5_counterexample :
    sample_accepted [[25]] = some [25] ∧ ¬ (25 < 25) := by
  constructor
  · rfl
  · decide

/-- C5 amended: every token accepted by the rejection-sampling loop and
written into the finalized target sequence is neither sentinel `26` nor
`27`: with draws from the 28-token vocabulary, every accepted token index is
strictly less than 26 (but not necessarily less than 25, since token 25 is
never rejected). -/
theorem c5_accepted_token_lt_26 (proposals : List (List ℕ)) (temp : List ℕ)
    (hvocab : ∀ t ∈ proposals, ∀ x ∈ t, x < 28)
    (hacc : sample_accepted proposals = some temp) :
    ∀ x ∈ temp, x < 26 := by
  intro x hx
  have hmem : temp ∈ proposals := List.mem_of_find?_eq_some hacc
  have hp : belief_accept temp = true := List.find?_some hacc
  have h28 : x < 28 := hvocab temp hmem x hx
  unfold belief_accept at hp
  rw [Bool.and_eq_true, Bool.not_eq_true', Bool.not_eq_true'] at hp
  obtain ⟨h26, h27⟩ := hp
  rw [List.any_eq_false] at h26 h27
  have a26 := h26 x hx
  have a27 := h27 x hx
  simp only [beq_iff_eq] at a26 a27
  omega

theorem c5_accepted_token_lt_26_witness :
    (∀ t ∈ ([[26, 3], [4, 5]] : List (List ℕ)), ∀ x ∈ t, x < 28) ∧
    sample_accepted [[26, 3], [4, 5]] = some [4, 5] ∧
    (∀ x ∈ ([4, 5] : List ℕ), x < 26) :=
  ⟨by decide, by decide,
   c5_accepted_token_lt_26 [[26, 3], [4, 5]] [4, 5] (by decide) (by decide)⟩

/-! ### C6: the hand-block zero assertion in act versus td_error -/

/-- C6: `td_error` really asserts that the first 125 entries of every
private-observation vector sum to zero, failing fatally on violation; but in
`act` the same assertion runs after `priv_s = priv_s.flatten(0, 1)` has made
`priv_s` two-dimensional, so the three-index access `priv_s[:,:,0:125]` is an
unconditional indexing error: `act`'s check fails on every input, including
an all-zero hand block that `td_error` accepts. -/
theorem c6_act_hand_check_always_fails :
    (∀ priv_s, act_hand_check priv_s = none) ∧
    td_error_hand_check [[List.replicate 838 0]] = some true ∧
    td_error_hand_check [[1 :: List.replicate 837 0]] = some false := by
  refine ⟨fun p => rfl, ?_, ?_⟩
  · have h2 : ((List.replicate 838 (0 : ℚ)).drop 0).take (125 - 0) =
        List.replicate 125 0 := by
      rw [List.drop_zero, List.take_replicate]
      norm_num
    simp only [td_error_hand_check, slice_idx3, List.map_cons, List.map_nil,
      Option.map_some', h2, sum_last, all_zero, List.sum_replicate, smul_zero,
      List.all_cons, List.all_nil, beq_self_eq_true, Bool.and_true]
  · have h2 : (((1 : ℚ) :: List.replicate 837 0).drop 0).take (125 - 0) =
        1 :: List.replicate 124 0 := by
      rw [List.drop_zero]
      norm_num [List.take_succ_cons, List.take_replicate]
    simp only [td_error_hand_check, slice_idx3, List.map_cons, List.map_nil,
      Option.map_some', h2, sum_last, all_zero, List.sum_cons,
      List.sum_replicate, smul_zero, add_zero, List.all_cons, List.all_nil]
    norm_num

/-! ### C7: loss aggregation -/

theorem sum_dim0_nil (bsize : ℕ) : sum_dim0 bsize [] = List.replicate bsize 0 :=
  rfl

theorem sum_dim0_cons (bsize : ℕ) (r : List ℚ) (rs : List (List ℚ)) :
    sum_dim0 bsize (r :: rs) = List.zipWith (· + ·) r (sum_dim0 bsize rs) :=
  rfl

theorem sum_dim0_length (bsize : ℕ) (rows : List (List ℚ))
    (h : ∀ r ∈ rows, r.length = bsize) : (sum_dim0 bsize rows).length = bsize := by
  induction rows with
  | nil => simp [sum_dim0_nil]
  | cons r rs ih =>
    have hr : r.length = bsize := h r (List.mem_cons_self r rs)
    have hrs := ih (fun x hx => h x (List.mem_cons.mpr (Or.inr hx)))
    rw [sum_dim0_cons, List.length_zipWith]
    omega

theorem sum_dim0_getD (bsize : ℕ) (rows : List (List ℚ))
    (h : ∀ r ∈ rows, r.length = bsize) (b : ℕ) (hb : b < bsize) :
    (sum_dim0 bsize rows).getD b 0 = (rows.map (fun r => r.getD b 0)).sum := by
  induction rows with
  | nil =>
    rw [sum_dim0_nil, List.getD_eq_getElem _ _ (by simpa using hb)]
    simp
  | cons r rs ih =>
    have hr : r.length = bsize := h r (List.mem_cons_self r rs)
    have htl : ∀ x ∈ rs, x.length = bsize :=
      fun x hx => h x (List.mem_cons.mpr (Or.inr hx))
    rw [sum_dim0_cons,
      list_getD_zipWith _ _ _ b 0 0 0 (by omega)
        (by rw [sum_dim0_length _ _ htl]; exact hb),
      ih htl]
    simp

/-- C7 counterexample: with priority disabled (`uniform_priority = true`) and
a nonzero TD error, `loss` still returns the elementwise `|td_error|` as the
priority — not uniform ones. -/
theorem c7_counterexample :
    (loss_fn true 0 [[2]] [0] 1).2 = [[2]] ∧
    (loss_fn true 0 [[2]] [0] 1).2 ≠ [[1]] := by
  constructor
  · rfl
  · decide

/-- C7 amended: `loss` returns `total_loss` equal to the smooth-L1 loss of
the TD error against zero summed over the time axis, plus
`pred_weight * aux_loss` exactly when `pred_weight > 0`; the returned
priority is the elementwise `|td_error|` unconditionally — the
`uniform_priority` flag never routes `loss` to uniform ones (those come only
from the separate `compute_priority` entry point). -/
theorem c7_loss_characterization (flag : Bool) (w : ℚ) (err : List (List ℚ))
    (pl : List ℚ) (bsize : ℕ)
    (herr : ∀ r ∈ err, r.length = bsize) (hpl : pl.length = bsize) :
    (∀ b, b < bsize →
      (loss_fn flag w err pl bsize).1.getD b 0 =
        (err.map (fun r => smooth_l1 (r.getD b 0))).sum +
          (if 0 < w then w * pl.getD b 0 else 0)) ∧
    (∀ t b, t < err.length → b < bsize →
      ((loss_fn flag w err pl bsize).2.getD t []).getD b 0 =
        |(err.getD t []).getD b 0|) ∧
    loss_fn flag w err pl bsize = loss_fn (!flag) w err pl bsize := by
  have hmap : ∀ r ∈ err.map (fun row => row.map smooth_l1), r.length = bsize := by
    intro r hr
    obtain ⟨r0, hr0, rfl⟩ := List.mem_map.mp hr
    rw [List.length_map]
    exact herr r0 hr0
  refine ⟨?_, ?_, rfl⟩
  · intro b hb
    have hre : (err.map (fun row => row.map smooth_l1)).map (fun r => r.getD b 0) =
        err.map (fun r => smooth_l1 (r.getD b 0)) := by
      rw [List.map_map]
      apply List.map_congr_left
      intro r hr
      exact list_getD_map smooth_l1 r b 0 0 (by rw [herr r hr]; exact hb)
    have hfst : (loss_fn flag w err pl bsize).1 =
        if 0 < w then
          List.zipWith (fun x y => x + w * y)
            (sum_dim0 bsize (err.map (fun row => row.map smooth_l1))) pl
        else sum_dim0 bsize (err.map (fun row => row.map smooth_l1)) := rfl
    rw [hfst]
    split
    · rw [list_getD_zipWith _ _ _ b 0 0 0
        (by rw [sum_dim0_length _ _ hmap]; exact hb) (by omega)]
      rw [sum_dim0_getD _ _ hmap b hb, hre]
    · rw [sum_dim0_getD _ _ hmap b hb, hre]
      ring
  · intro t b ht hb
    have hsnd : (loss_fn flag w err pl bsize).2 =
        err.map (fun row => row.map (fun x => |x|)) := rfl
    rw [hsnd]
    rw [list_getD_map _ _ t [] [] ht]
    rw [list_getD_map _ _ b 0 0
      (by rw [herr _ (list_getD_mem err t [] ht)]; exact hb)]

theorem c7_loss_characterization_witness :
    (∀ r ∈ ([[2], [1 / 2]] : List (List ℚ)), r.length = 1) ∧
    (loss_fn false 1 [[2], [1 / 2]] [3] 1).1.getD 0 0 =
      (([[2], [1 / 2]] : List (List ℚ)).map (fun r => smooth_l1 (r.getD 0 0))).sum +
        (if (0 : ℚ) < 1 then 1 * ([3] : List ℚ).getD 0 0 else 0) ∧
    ((loss_fn false 1 [[2], [1 / 2]] [3] 1).2.getD 0 []).getD 0 0 =
      |(([[2], [1 / 2]] : List (List ℚ)).getD 0 []).getD 0 0| :=
  ⟨by decide,
   (c7_loss_characterization false 1 [[2], [1 / 2]] [3] 1 (by decide)
     (by decide)).1 0 (by decide),
   (c7_loss_characterization false 1 [[2], [1 / 2]] [3] 1 (by decide)
     (by decide)).2.1 0 0 (by decide) (by decide)⟩

/-! ### C10: compute_priority -/

/-- C10: `compute_priority` returns an all-ones tensor of shape
`[priv_s.size(0), priv_s.size(1)]`, independent of every tensor value in the
input and of the `uniform_priority` flag. -/
theorem c10_compute_priority_uniform (flag flag2 : Bool)
    (p q rest rest2 : List (List (List ℚ)))
    (h0 : p.length = q.length)
    (h1 : (p.headD []).length = (q.headD []).length) :
    compute_priority flag p rest = compute_priority flag2 q rest2 ∧
    (compute_priority flag p rest).length = p.length ∧
    (∀ row ∈ compute_priority flag p rest, row.length = (p.headD []).length) ∧
    (∀ row ∈ compute_priority flag p rest, ∀ x ∈ row, x = 1) := by
  refine ⟨?_, ?_, ?_, ?_⟩
  · unfold compute_priority
    rw [h0, h1]
  · simp [compute_priority]
  · intro row hrow
    rw [List.eq_of_mem_replicate hrow]
    simp
  · intro row hrow x hx
    rw [List.eq_of_mem_replicate hrow] at hx
    exact List.eq_of_mem_replicate hx

theorem c10_compute_priority_uniform_witness :
    ([[[5]]] : List (List (List ℚ))).length =
      ([[[7]]] : List (List (List ℚ))).length ∧
    compute_priority true [[[5]]] [] = compute_priority false [[[7]]] [[[9]]] ∧
    (∀ row ∈ compute_priority true ([[[5]]] : List (List (List ℚ))) [],
      ∀ x ∈ row, x = 1) :=
  ⟨by decide,
   (c10_compute_priority_uniform true false [[[5]]] [[[7]]] [] [[[9]]]
     (by decide) (by decide)).1,
   (c10_compute_priority_uniform true false [[[5]]] [[[7]]] [] [[[9]]]
     (by decide) (by decide)).2.2.2⟩
